import Mathlib

/-
Verification of the fixed-income relative-value engine (commas repository).

Shallow embedding of the Python sources into Lean 4.  Machine floats are
modelled by exact rationals (ℚ) except where the source uses real-exponent
`math.pow`, which is modelled by `Real.rpow` over ℝ.  Python exceptions are
modelled by `Option`/`Except` results; Python's division by zero (which
raises) corresponds to Lean's junk value `x / 0 = 0` and is flagged in the
theorems concerned.
-/

/-! ## QuantitySizer fragments (src/KPIs2_Orders.py, `calculate_quantities`) -/

/-- Row of the `HEDGES_Combos` table restricted to the fields consumed by the
quantity-scaling step of `calculate_quantities` (KPIs2_Orders.py lines 70-76):
per-row leg quantities `Q['A']`/`Q['B']`, the contract multipliers
`A_FUT_Multiplier`/`B_FUT_Multiplier` and futures prices
`A_FUT_Price`/`B_FUT_Price`. -/
structure PairRow where
  qA : ℚ
  multA : ℚ
  priceA : ℚ
  qB : ℚ
  multB : ℚ
  priceB : ℚ
deriving DecidableEq

/-- Aggregate notional `total_Q` of KPIs2_Orders.py lines 71-72:
`(Q['A'] * A_FUT_Multiplier * A_FUT_Price).sum() + (Q['B'] * B_FUT_Multiplier * B_FUT_Price).sum()`. -/
def totalNotional (rows : List PairRow) : ℚ :=
  (rows.map fun r => r.qA * r.multA * r.priceA).sum +
    (rows.map fun r => r.qB * r.multB * r.priceB).sum

/-- Scaling step of KPIs2_Orders.py lines 74-76: when `total_Q >= 0.9 * SMA`,
every `Q` value is multiplied by `scaling_factor = (0.9 * SMA) / total_Q`;
otherwise the rows are returned unchanged. -/
def scaleQuantities (SMA : ℚ) (rows : List PairRow) : List PairRow :=
  let totalQ := totalNotional rows
  if 9 / 10 * SMA ≤ totalQ then
    let factor := (9 / 10 * SMA) / totalQ
    rows.map fun r => { r with qA := r.qA * factor, qB := r.qB * factor }
  else
    rows

/-- DV01-neutral raw ratio table of KPIs2_Orders.py lines 49-68, keyed on the
front/back contract multipliers; the trailing case models the fall-through in
which none of the four `elif` branches fires and `Q` keeps its initial zeros. -/
def dv01NeutralQ (front_multiplier back_multiplier front_dv01 back_dv01 : ℚ) : ℚ × ℚ :=
  let dv01_avg := (front_dv01 + back_dv01) / 2
  if front_multiplier = 1000 ∧ back_multiplier = 1000 then
    (back_dv01 / dv01_avg, front_dv01 / dv01_avg)
  else if front_multiplier = 2000 ∧ back_multiplier = 1000 then
    (1 * (back_dv01 / dv01_avg), 1 / 2 * (front_dv01 / dv01_avg))
  else if front_multiplier = 1000 ∧ back_multiplier = 2000 then
    (1 / 2 * (back_dv01 / dv01_avg), 1 * (front_dv01 / dv01_avg))
  else if front_multiplier = 2000 ∧ back_multiplier = 2000 then
    (1 / 2 * (back_dv01 / dv01_avg), 1 / 2 * (front_dv01 / dv01_avg))
  else
    (0, 0)

/-- Direction-assignment step of KPIs2_Orders.py lines 167-172: the A-leg ratio
is multiplied by `-1` when `A_AdjNetBasis - B_AdjNetBasis > 0`, and the B-leg
ratio is multiplied by `-1` when `A_AdjNetBasis - B_AdjNetBasis < 0`. -/
def assignLegSigns (qA qB adjA adjB : ℚ) : ℚ × ℚ :=
  (if adjA - adjB > 0 then qA * (-1) else qA,
   if adjA - adjB < 0 then qB * (-1) else qB)

/-- Concrete one-pair input for the C1 witness: quantity 1 on each leg,
multiplier 1000, futures price 100, so the pre-scaling notional is 200000. -/
def c1Rows : List PairRow := [⟨1, 1000, 100, 1, 1000, 100⟩]

/-! ## PairRanker pair builder (src/ctd_fut_kpis.py, `run_fixed_income_calculation`) -/

/-- Row of the `HEDGES` table restricted to the identifiers consulted by the
pair builder: the futures contract identifier `conId` and the matched CTD
bond's contract identifier `CTD_conId`. -/
structure HedgeRow where
  conId : ℤ
  ctdConId : ℤ
deriving DecidableEq

/-- Pair builder of ctd_fut_kpis.py lines 83-85:
`itertools.product(HEDGES.iterrows(), repeat=2)` filtered by
`row1['CTD_conId'] != row2['CTD_conId']`. -/
def hedgeCombos (rows : List HedgeRow) : List (HedgeRow × HedgeRow) :=
  (rows.flatMap fun r1 => rows.map fun r2 => (r1, r2)).filter
    fun p => decide (p.1.ctdConId ≠ p.2.ctdConId)

/-! ## FuturesPriceNormalizer (src/Future_index.py, `convert_futures_price`)

Python strings are modelled by `String`, with the parsing done on the
underlying character list; Python's `ValueError` is modelled by `none`. -/

/-- Apostrophe character (codepoint 39), the handle separator of the exchange
fractional price format. -/
def apos : Char := Char.ofNat 39

/-- Model of Python `str.split(sep)` for a single-character separator. -/
def splitOnChar (sep : Char) : List Char → List (List Char)
  | [] => [[]]
  | c :: rest =>
    let r := splitOnChar sep rest
    if c = sep then [] :: r
    else
      match r with
      | h :: t => (c :: h) :: t
      | [] => [[c]]

/-- Numeric value of a list of decimal digit characters. -/
def digitsVal (cs : List Char) : ℕ :=
  cs.foldl (fun n c => 10 * n + (c.toNat - 48)) 0

/-- Digit-string parser underlying the `int`/`float` models: `none` models the
`ValueError` Python raises on a non-numeric string. -/
def digitsToNat? (cs : List Char) : Option ℕ :=
  if cs = [] then none
  else if cs.all Char.isDigit then some (digitsVal cs)
  else none

/-- Model of Python `int(s)` on a string: optional leading minus sign followed
by decimal digits. -/
def pyIntChars? (cs : List Char) : Option ℤ :=
  match cs with
  | c :: rest =>
      if c = '-' then (digitsToNat? rest).map fun n => -(n : ℤ)
      else (digitsToNat? cs).map fun n => (n : ℤ)
  | [] => none

/-- Model of Python `int(s)` taking a `String`. -/
def pyInt? (s : String) : Option ℤ := pyIntChars? s.data

/-- Model of Python `float(s)` on a plain decimal string: optional minus sign,
integer digits, optional fractional digits.  `none` models `ValueError`. -/
def pyFloat? (s : String) : Option ℚ :=
  let body := match s.data with
    | c :: rest => if c = '-' then rest else s.data
    | [] => []
  let sign : ℚ := match s.data with
    | c :: _ => if c = '-' then -1 else 1
    | [] => 1
  match splitOnChar '.' body with
  | [ip] => (digitsToNat? ip).map fun n => sign * (n : ℚ)
  | [ip, fp] =>
      if ip = [] ∧ fp = [] then none
      else if ip.all Char.isDigit ∧ fp.all Char.isDigit then
        some (sign * ((digitsVal ip : ℚ) + (digitsVal fp : ℚ) / (10 : ℚ) ^ fp.length))
      else none
  | _ => none

/-- Sub-fraction denominator table of Future_index.py lines 287-293:
`denominators.get(fut_type, 32)`. -/
def futDenominator (fut_type : Option String) : ℚ :=
  match fut_type with
  | some t =>
      if t = "half" then 2
      else if t = "quarter" then 4
      else if t = "eighth" then 8
      else if t = "sixteenth" then 16
      else 32
  | none => 32

/-- `convert_futures_price` of Future_index.py lines 274-302: a string without
an apostrophe passes through `float`; otherwise it is split into
handle-and-fraction at the apostrophe, and a fraction `a.b` contributes
`int(a)/32 + int(b)/(32 * denominator)`.  `none` models the re-raised
`ValueError` on malformed input. -/
def convert_futures_price (price : String) (fut_type : Option String) : Option ℚ :=
  if price.data.contains apos = false then
    pyFloat? price
  else
    match splitOnChar apos price.data with
    | [wholeCs, fracCs] =>
      match pyIntChars? wholeCs with
      | none => none
      | some whole =>
        let denominator := futDenominator fut_type
        if fracCs.contains '.' then
          match splitOnChar '.' fracCs with
          | [aCs, bCs] =>
            match pyIntChars? aCs, pyIntChars? bCs with
            | some frac_32nd, some frac_part =>
                some ((whole : ℚ) + ((frac_32nd : ℚ) / 32 + (frac_part : ℚ) / (32 * denominator)))
            | _, _ => none
          | _ => none
        else
          match pyIntChars? fracCs with
          | some fr => some ((whole : ℚ) + (fr : ℚ) / 32)
          | none => none
    | _ => none

/-- The exchange price string 134'16.5 of the C4 scenario (built from
characters so the apostrophe appears explicitly as codepoint 39). -/
def c4PriceStr : String := String.mk ['1', '3', '4', apos, '1', '6', '.', '5']

/-! ## Bond-record validation (src/fixed_income_calc.py, `compute_ust_kpis`) -/

/-- Bond record as read by `compute_ust_kpis` (fixed_income_calc.py lines
370-378): each field is `none` when missing (pandas NaN / Python None) and
`some s` when present, where `s` may be the empty string. -/
structure UstItem where
  issue_date : Option String
  maturity_date : Option String
  coupon_rate : Option String
  coupon_prev_date : Option String
  coupon_ncpdt : Option String
  principal_value : Option String
  ask_price : Option String
  bid_price : Option String
  last_price : Option String
deriving DecidableEq

/-- Presence test `pd.notna(x) and x != ""` used by the `is_valid` check. -/
def fieldPresent (o : Option String) : Bool :=
  match o with
  | none => false
  | some s => decide (s ≠ "")

/-- The validated and converted inputs that `compute_ust_kpis` hands to
`calculate_bond_metrics`; the downstream numeric analytics are outside this
record's concern, so it carries the converted arguments themselves
(`face_value` is passed through unconverted, as in the source). -/
structure UstKpiInputs where
  face_value : Option String
  market_price : ℚ
  coupon_rate : ℚ
  issue_date : ℤ
  maturity_date : ℤ
  coupon_prev_date : ℤ
  coupon_next_date : ℤ
deriving DecidableEq

/-- `compute_ust_kpis` of fixed_income_calc.py lines 357-438, up to the field
validation and numeric conversions: `.ok none` models the `return None` taken
when `is_valid` is false; `.error` models a Python exception escaping the
function (e.g. `float("")`); `.ok (some _)` models a returned metrics
dictionary.  Note that `last_price` is read and converted but not part of
`is_valid`.  Conversions appear in source evaluation order. -/
def compute_ust_kpis (item : UstItem) : Except String (Option UstKpiInputs) :=
  let is_valid :=
    fieldPresent item.ask_price && fieldPresent item.bid_price &&
    fieldPresent item.issue_date && fieldPresent item.maturity_date &&
    fieldPresent item.coupon_rate && fieldPresent item.coupon_prev_date &&
    fieldPresent item.coupon_ncpdt && fieldPresent item.principal_value
  if is_valid then
    match pyFloat? (item.coupon_rate.getD "") with
    | none => .error "float coupon_rate"
    | some cr =>
      match pyInt? (item.issue_date.getD "") with
      | none => .error "int issue_date"
      | some isd =>
        match pyInt? (item.maturity_date.getD "") with
        | none => .error "int maturity_date"
        | some mat =>
          match pyInt? (item.coupon_prev_date.getD "") with
          | none => .error "int coupon_prev_date"
          | some pcd =>
            match pyInt? (item.coupon_ncpdt.getD "") with
            | none => .error "int coupon_ncpdt"
            | some ncd =>
              match pyFloat? (item.ask_price.getD "") with
              | none => .error "float ask_price"
              | some ask =>
                match pyFloat? (item.bid_price.getD "") with
                | none => .error "float bid_price"
                | some bid =>
                  match pyFloat? (item.last_price.getD "") with
                  | none => .error "float last_price"
                  | some last =>
                    .ok (some ⟨item.principal_value, (ask + bid + last) / 3,
                      cr, isd, mat, pcd, ncd⟩)
  else
    .ok none

/-- A bond record complete in every validated field but with an empty last
price: `is_valid` passes (last price is not checked) and the midpoint
computation then raises on `float("")`. -/
def c6FailingItem : UstItem :=
  { issue_date := some "20180215", maturity_date := some "20280215",
    coupon_rate := some "4.5", coupon_prev_date := some "20250815",
    coupon_ncpdt := some "20260215", principal_value := some "100",
    ask_price := some "99.5", bid_price := some "99.25",
    last_price := some "" }

/-! ## Yield-to-maturity solver (src/fixed_income_calc.py, `calculate_ytm`) -/

/-- Python `int()` truncation toward zero on a rational. -/
def pyTrunc (x : ℚ) : ℤ := if 0 ≤ x then ⌊x⌋ else ⌈x⌉

/-- Python `round()` to the nearest integer with banker's rounding (ties go to
the even integer). -/
def roundHalfEven (q : ℚ) : ℤ :=
  let f := ⌊q⌋
  let r := q - f
  if r < 1 / 2 then f
  else if 1 / 2 < r then f + 1
  else if f % 2 = 0 then f else f + 1

/-- Python `round(x, ndigits)`. -/
def pyRound (ndigits : ℕ) (x : ℚ) : ℚ :=
  (roundHalfEven (x * 10 ^ ndigits) : ℚ) / 10 ^ ndigits

/-- Arguments of `calculate_ytm` (fixed_income_calc.py line 73). -/
structure YtmArgs where
  market_price : ℚ
  face_value : ℚ
  coupon_rate : ℚ
  time_to_maturity : ℚ
  periods_per_year : ℕ
  n_digits : ℕ

/-- Normalized target price `market_price / 100.0 * face_value` (line 88). -/
def ytmTargetPrice (a : YtmArgs) : ℚ := a.market_price / 100 * a.face_value

/-- Periodic coupon payment `face_value * coupon_rate / periods_per_year`
with `coupon_rate = coupon_rate / 100.0` (lines 89-90). -/
def ytmCouponPayment (a : YtmArgs) : ℚ :=
  a.face_value * (a.coupon_rate / 100) / a.periods_per_year

/-- Number of coupon periods `int(time_to_maturity * periods_per_year)`
(lines 94-96), kept signed as in Python: negative values make the coupon
`range` empty but still appear as a negative exponent on the face-value
term. -/
def ytmNPeriods (a : YtmArgs) : ℤ :=
  pyTrunc (a.time_to_maturity * a.periods_per_year)

/-- Numeric value computed by the inner `bond_price` of `calculate_ytm`
(lines 92-97) when no exception occurs: discounted coupon stream over
`range(1, n+1)` (empty for `n ≤ 0`) plus the face value discounted by the
signed exponent `n`.  At `base = 1 + ytm/periods_per_year = 0` with `n ≠ 0`
this value is junk (Lean division by zero); `ytmBondPrice?` is the faithful
model of the call and returns `none` exactly there, so this function is only
consulted on successful evaluations. -/
def ytmBondPriceVal (a : YtmArgs) (ytm : ℚ) : ℚ :=
  let base := 1 + ytm / a.periods_per_year
  (List.range (ytmNPeriods a).toNat).foldl
      (fun pv t => pv + ytmCouponPayment a / base ^ (t + 1)) 0 +
    a.face_value / base ^ ytmNPeriods a

/-- Inner `bond_price` of `calculate_ytm` (lines 92-97) with Python's
`ZeroDivisionError` modelled by `none`: the call raises exactly when the
discount base `1 + ytm/periods_per_year` is zero and at least one division by
a power of it occurs — a positive period count divides by `base**t` in the
loop, a negative one evaluates `base**n` with `n < 0` (`0.0` to a negative
power raises); `n = 0` only computes `base**0 = 1` and does not raise. -/
def ytmBondPrice? (a : YtmArgs) (ytm : ℚ) : Option ℚ :=
  if 1 + ytm / a.periods_per_year = 0 ∧ ytmNPeriods a ≠ 0 then none
  else some (ytmBondPriceVal a ytm)

/-- Central-difference price derivative with step `delta_ytm = 1e-5`
(lines 109-112), expressed on the successful-evaluation values. -/
def ytmDeriv (a : YtmArgs) (ytm : ℚ) : ℚ :=
  (ytmBondPriceVal a (ytm + 1 / 100000) - ytmBondPriceVal a (ytm - 1 / 100000)) /
    (2 * (1 / 100000))

/-- Newton-Raphson update `ytm - (price_at_ytm - market_price) / price_derivative`
(line 119), expressed on the successful-evaluation values. -/
def ytmNewton (a : YtmArgs) (ytm : ℚ) : ℚ :=
  ytm - (ytmBondPriceVal a ytm - ytmTargetPrice a) / ytmDeriv a ytm

/-- One guarded solver step: the Newton update, taken only when the derivative
guard of line 114 does not fire (a small-derivative point is a fixed point).
A solver run that raises no exception follows the orbit of this map. -/
def ytmIterate (a : YtmArgs) (ytm : ℚ) : ℚ :=
  if |ytmDeriv a ytm| < 1 / 10 ^ 12 then ytm else ytmNewton a ytm

/-- The `for _ in range(max_iterations)` loop of lines 104-125, recursing on
the remaining iteration count.  Each iteration evaluates `bond_price` at the
current estimate and at the two bumped points (source order); a
`ZeroDivisionError` in any of them propagates as `none`.  Otherwise: return
the current estimate when the derivative magnitude drops below 1e-12; return
the rounded new estimate when successive iterates differ by less than the
1e-8 tolerance; return the last iterate when the fuel is exhausted. -/
def ytmLoop? (a : YtmArgs) : ℕ → ℚ → Option ℚ
  | 0, y => some y
  | fuel + 1, y =>
      match ytmBondPrice? a y, ytmBondPrice? a (y + 1 / 100000),
          ytmBondPrice? a (y - 1 / 100000) with
      | some price_at_ytm, some price_up, some price_down =>
          let price_derivative := (price_up - price_down) / (2 * (1 / 100000))
          if |price_derivative| < 1 / 10 ^ 12 then some y
          else
            let ytm_new := y - (price_at_ytm - ytmTargetPrice a) / price_derivative
            if |ytm_new - y| < 1 / 10 ^ 8 then some (pyRound a.n_digits ytm_new)
            else ytmLoop? a fuel ytm_new
      | _, _, _ => none

/-- `calculate_ytm` (fixed_income_calc.py lines 73-125): 1000 iterations
starting from the coupon rate as initial guess.  `none` models a
`ZeroDivisionError` escaping the function: `periods_per_year = 0` raises at
the `coupon_payment` computation of line 90 before the loop, and a zero
discount base raises inside `bond_price`. -/
def calculate_ytm (a : YtmArgs) : Option ℚ :=
  if a.periods_per_year = 0 then none
  else ytmLoop? a 1000 (a.coupon_rate / 100)

/-- Solver input on which Python raises: `coupon_rate = -200` with
`periods_per_year = 2` makes the initial guess `-2`, so the first
`bond_price` call divides by `(1 + (-2)/2)**t = 0`. -/
def c7RaiseArgs : YtmArgs := ⟨100, 100, -200, 1, 2, 2⟩

/-- Solver input on which the run completes: zero face value makes every bond
price 0, the derivative guard fires on the first iteration and the solver
returns the initial guess 0. -/
def c7OkArgs : YtmArgs := ⟨100, 0, 0, 0, 2, 2⟩

/-! ## ConversionFactorMatcher (src/cf_ctd.py) -/

/-- UST bond universe row restricted to the fields consulted by
`find_conversion_factor` and kept by `process_futures_data`. -/
structure USTRec where
  cusip : String
  con_id : ℤ
  price : ℚ
  year_to_maturity : ℚ
deriving DecidableEq

/-- Futures contract row restricted to the fields consulted by
`find_conversion_factor`. -/
structure FutRec where
  symbol : String
  price : ℚ
deriving DecidableEq

/-- Conversion-factor lookup table read from the workbook: coupon column (A6
onward), years-months header row (B5 onward) and the grid of conversion
factors, with `none` modelling a NaN cell. -/
structure CFTable where
  coupons : List ℚ
  years_months : List ℚ
  cells : List (List (Option ℚ))

/-- `sheet_mapping` of cf_ctd.py lines 12-18: futures symbol to sheet name and
year-to-maturity bracket. -/
def sheet_mapping (symbol : String) : Option (String × ℚ × ℚ) :=
  if symbol = "ZT" then some ("2-Year Note Table", 7 / 4, 2)
  else if symbol = "Z3N" then some ("3-Year Note Table", 11 / 4, 3)
  else if symbol = "ZF" then some ("5-Year Note Table", 416667 / 100000, 21 / 4)
  else if symbol = "ZN" then some ("10-Year Note Table", 13 / 2, 10)
  else if symbol = "TN" then some ("10-Year Note Table", 19 / 2, 10)
  else none

/-- First-occurrence argmin by a rational key: the element with the smallest
key, earliest in the list on ties.  Models the `argsort()[:1]` then `iloc[0]`
selection of cf_ctd.py line 37 read as a stable ranking. -/
def argminFirst {α : Type} (key : α → ℚ) : List α → Option α
  | [] => none
  | a :: t => some (t.foldl (fun best x => if key x < key best then x else best) a)

/-- Stage-one CTD bond selection of cf_ctd.py lines 36-38: minimise
`|price * futures_price - price|` over the eligible bonds. -/
def selectCtdBond (futures_price : ℚ) (usts : List USTRec) : Option USTRec :=
  argminFirst (fun u => |u.price * futures_price - u.price|) usts

/-- Row-major grid search of cf_ctd.py lines 51-66: scan every non-NaN cell,
keep the first cell whose distance to the target is strictly smaller than any
seen before; the accumulator carries `(min_diff, cf, coupon, years_months)`. -/
def bestCfCell (target : ℚ) (tbl : CFTable) : Option (ℚ × ℚ × ℚ) :=
  ((tbl.cells.zip tbl.coupons).foldl
      (fun acc rc =>
        (rc.1.zip tbl.years_months).foldl
          (fun acc2 cellYm =>
            match cellYm.1 with
            | none => acc2
            | some cf =>
              let diff := |cf - target|
              match acc2 with
              | none => some (diff, cf, rc.2, cellYm.2)
              | some prev =>
                  if diff < prev.1 then some (diff, cf, rc.2, cellYm.2) else acc2)
          acc)
      none).map fun r => (r.2.1, r.2.2.1, r.2.2.2)

/-- `round_to_nearest_quarter` of cf_ctd.py lines 75-76: `round(value * 4) / 4`
with Python's banker's rounding. -/
def round_to_nearest_quarter (value : ℚ) : ℚ :=
  (roundHalfEven (value * 4) : ℚ) / 4

/-- `find_conversion_factor` of cf_ctd.py lines 10-72: look up the symbol's
bracket (raising on an unknown symbol), filter the bond universe to the open
bracket, return four `None`s when no bond qualifies, and otherwise return the
best grid cell (value, quarter-rounded coupon, years-months bucket) together
with the selected bond row. -/
def find_conversion_factor (fut : FutRec) (usts : List USTRec) (tbl : CFTable) :
    Except String (Option ℚ × Option ℚ × Option ℚ × Option USTRec) :=
  match sheet_mapping fut.symbol with
  | none => .error "Invalid futures symbol"
  | some (_, ytm_min, ytm_max) =>
    let filtered_USTs := usts.filter fun u =>
      decide (ytm_min < u.year_to_maturity ∧ u.year_to_maturity < ytm_max)
    match selectCtdBond fut.price filtered_USTs with
    | none => .ok (none, none, none, none)
    | some selected =>
      match bestCfCell (selected.price * fut.price) tbl with
      | none => .ok (none, none, none, some selected)
      | some (cf, coupon, ym) =>
          .ok (some cf, some (round_to_nearest_quarter coupon), some ym, some selected)

/-- `process_futures_data` of cf_ctd.py lines 97-137 restricted to the hedge
rows it keeps: each futures contract is matched by `find_conversion_factor`
(an unknown symbol raises out of the whole loop), and the
`dropna(subset=['CTD_CUSIP'])` of line 131 keeps exactly the contracts whose
match selected a bond. -/
def process_futures_data (futs : List FutRec) (usts : List USTRec) (tbl : CFTable) :
    Except String (List (FutRec × USTRec)) :=
  match futs with
  | [] => .ok []
  | f :: rest =>
    match find_conversion_factor f usts tbl with
    | .error e => .error e
    | .ok (_, _, _, none) => process_futures_data rest usts tbl
    | .ok (_, _, _, some sel) =>
        (process_futures_data rest usts tbl).map fun l => (f, sel) :: l

/-- Modelled from the spec (C10 reference behaviour): select the eligible bond
with the smallest price, first in scan order on ties. -/
def smallestPriceBond (usts : List USTRec) : Option USTRec :=
  argminFirst (fun u => u.price) usts

/-- Concrete bond for the C3 witness: year-to-maturity 1.9, inside the ZT
bracket (1.75, 2). -/
def c3Bond : USTRec := ⟨"91282CAV3", 5, 99, 19 / 10⟩

/-- Concrete bond list for the C10 witness: positive prices, distinct. -/
def c10List : List USTRec := [⟨"91282CAA1", 1, 101, 3⟩, ⟨"91282CAB9", 2, 99, 3⟩]

/-- Concrete ZT futures contract for the C3 witness. -/
def c3Fut : FutRec := ⟨"ZT", 100⟩

/-- Empty conversion-factor table for the C3 witness. -/
def c3Tbl : CFTable := ⟨[], [], []⟩

/-! ## Bond pricing (src/fixed_income_calc.py, `BPrice`)

`math.pow` with real exponent forces the model into ℝ (hence
`noncomputable`); the remaining definitions of this file stay executable. -/

/-- Core of the clean-price formula with `C = cpn/period`, `T = term*period`,
`x = yield_/period`: `C*(1-(1+x)^(-T))/x + 100/(1+x)^T`.  At `x = 0` Python
raises `ZeroDivisionError`; the Lean model takes the junk value `0/0 = 0`
there. -/
noncomputable def bpriceAux (C T x : ℝ) : ℝ :=
  C * (1 - (1 + x) ^ (-T)) / x + 100 / (1 + x) ^ T

/-- `BPrice` of fixed_income_calc.py lines 152-170 restricted to the
no-accrual-anchor branch exercised by the claim (`begin`/`settle`/
`next_coupon` absent, so the dirty-price adjustment of lines 167-169 is
skipped): `price = C*(1-(1+Y)^(-T))/Y + 100/(1+Y)^T`. -/
noncomputable def BPrice (cpn term yield_ period : ℝ) : ℝ :=
  let T := term * period
  let C := cpn / period
  let Y := yield_ / period
  C * (1 - (1 + Y) ^ (-T)) / Y + 100 / (1 + Y) ^ T

-- Scaling every Q value by a common factor scales the aggregate notional.
theorem totalNotional_scale (f : ℚ) (rows : List PairRow) :
    totalNotional (rows.map fun r => { r with qA := r.qA * f, qB := r.qB * f }) =
      f * totalNotional rows := by
  induction rows with
  | nil => simp [totalNotional]
  | cons r t ih =>
      simp only [totalNotional, List.map_cons, List.sum_cons] at ih ⊢
      linear_combination ih

/-- Claim C1: after the scaling step of `calculate_quantities`, the aggregate
notional `Σ (Q_leg * multiplier * legPrice)` over both legs is at most
`0.9 * SMA`, with equality exactly when scaling was triggered (pre-scaling
notional `≥ 0.9 * SMA`); when scaling is not triggered the Q values are left
unchanged.  The hypothesis `0 < totalNotional rows` excludes the degenerate
zero-notional input, on which the Python code divides by zero. -/
theorem scaleQuantities_cap (rows : List PairRow) (SMA : ℚ)
    (hpos : 0 < totalNotional rows) :
    totalNotional (scaleQuantities SMA rows) ≤ 9 / 10 * SMA ∧
    (totalNotional (scaleQuantities SMA rows) = 9 / 10 * SMA ↔
      9 / 10 * SMA ≤ totalNotional rows) ∧
    (totalNotional rows < 9 / 10 * SMA → scaleQuantities SMA rows = rows) := by
  by_cases h : 9 / 10 * SMA ≤ totalNotional rows
  · have hscaled : totalNotional (scaleQuantities SMA rows) = 9 / 10 * SMA := by
      rw [scaleQuantities, if_pos h, totalNotional_scale]
      field_simp
      ring
    refine ⟨le_of_eq hscaled, ⟨fun _ => h, fun _ => hscaled⟩, fun hlt => absurd h (not_le.mpr hlt)⟩
  · have hid : scaleQuantities SMA rows = rows := by
      rw [scaleQuantities, if_neg h]
    push_neg at h
    refine ⟨?_, ?_, fun _ => hid⟩
    · rw [hid]; exact le_of_lt h
    · constructor
      · intro he; rw [hid] at he; exact absurd (le_of_eq he.symm) (not_le.mpr h)
      · intro hge; exact absurd hge (not_le.mpr h)

/-- Witness for C1: on `c1Rows` with capital 100 the hypothesis holds and the
scaled notional respects the 90% cap. -/
theorem scaleQuantities_cap_witness :
    0 < totalNotional c1Rows ∧
    totalNotional (scaleQuantities 100 c1Rows) ≤ 9 / 10 * 100 :=
  ⟨by norm_num [totalNotional, c1Rows],
    (scaleQuantities_cap c1Rows 100 (by norm_num [totalNotional, c1Rows])).1⟩

/-- Claim C2: the DV01-neutral raw ratios match the 4-case table of §4.5 with
`avg = (front_dv01 + back_dv01) / 2`, and in particular front multiplier 1000,
back multiplier 2000, `front_dv01 = 60`, `back_dv01 = 120` yields
`Q_front = (1/2) * (120/90)` and `Q_back = 1 * (60/90)`. -/
theorem dv01NeutralQ_table (fd bd : ℚ) :
    dv01NeutralQ 1000 1000 fd bd = (bd / ((fd + bd) / 2), fd / ((fd + bd) / 2)) ∧
    dv01NeutralQ 2000 1000 fd bd = (bd / ((fd + bd) / 2), 1 / 2 * (fd / ((fd + bd) / 2))) ∧
    dv01NeutralQ 1000 2000 fd bd = (1 / 2 * (bd / ((fd + bd) / 2)), fd / ((fd + bd) / 2)) ∧
    dv01NeutralQ 2000 2000 fd bd = (1 / 2 * (bd / ((fd + bd) / 2)), 1 / 2 * (fd / ((fd + bd) / 2))) ∧
    dv01NeutralQ 1000 2000 60 120 = (1 / 2 * (120 / 90), 1 * (60 / 90)) := by
  refine ⟨?_, ?_, ?_, ?_, ?_⟩ <;> norm_num [dv01NeutralQ]

/-- Counterexample for C8 as stated: an emitted pair whose two legs have equal
adjusted net basis (`A_AdjNetBasis = B_AdjNetBasis = 5`) leaves both ratios
unchanged at `1`, so it is not the case that exactly one leg's ratio is
negated. -/
theorem assignLegSigns_tie_counterexample :
    assignLegSigns 1 1 5 5 = (1, 1) ∧ (1 : ℚ) ≠ -1 := by
  norm_num [assignLegSigns]

/-- Claim C8 (amended): whenever the two legs' adjusted net bases differ and
both pre-sign ratios are positive, the leg with the strictly higher adjusted
net basis has its ratio negated (sold short) while the other leg's ratio is
left unchanged and positive (bought long); on a tie neither ratio is negated
(see the counterexample). -/
theorem assignLegSigns_short_higher (qA qB adjA adjB : ℚ)
    (hqa : 0 < qA) (hqb : 0 < qB) :
    (adjB < adjA →
      assignLegSigns qA qB adjA adjB = (-qA, qB) ∧
      (assignLegSigns qA qB adjA adjB).1 < 0 ∧ 0 < (assignLegSigns qA qB adjA adjB).2) ∧
    (adjA < adjB →
      assignLegSigns qA qB adjA adjB = (qA, -qB) ∧
      0 < (assignLegSigns qA qB adjA adjB).1 ∧ (assignLegSigns qA qB adjA adjB).2 < 0) := by
  constructor
  · intro hAB
    have h1 : adjA - adjB > 0 := by linarith
    have h2 : ¬(adjA - adjB < 0) := by linarith
    simp only [assignLegSigns, if_pos h1, if_neg h2]
    refine ⟨by ring_nf, by nlinarith, hqb⟩
  · intro hAB
    have h1 : ¬(adjA - adjB > 0) := by linarith
    have h2 : adjA - adjB < 0 := by linarith
    simp only [assignLegSigns, if_neg h1, if_pos h2]
    refine ⟨by ring_nf, hqa, by nlinarith⟩

/-- Witness for C8 (amended): with ratios 2 and 3 and adjusted net bases 5 > 1,
the A leg is negated to -2 and the B leg stays 3. -/
theorem assignLegSigns_short_higher_witness :
    (0 : ℚ) < 2 ∧ (0 : ℚ) < 3 ∧ (1 : ℚ) < 5 ∧ assignLegSigns 2 3 5 1 = (-2, 3) :=
  ⟨by norm_num, by norm_num, by norm_num,
    ((assignLegSigns_short_higher 2 3 5 1 (by norm_num) (by norm_num)).1 (by norm_num)).1⟩

/-- Counterexample for C5 as stated: two candidates from distinct futures
contracts (`conId` 1 and 2) that share the same CTD bond (`CTD_conId` 7)
produce no pair at all, so the ordered pair of these two distinct-futures
candidates does not appear in the emitted cross product. -/
theorem hedgeCombos_shared_ctd_counterexample :
    hedgeCombos [⟨1, 7⟩, ⟨2, 7⟩] = [] := by decide

/-- Claim C5 (amended): the pair builder keys the self-pair exclusion on the
CTD bond identifier, not the futures contract: for duplicate-free candidate
rows, an ordered pair `(a, b)` is emitted exactly once when both rows are
candidates and their CTD identifiers differ, and never otherwise; in
particular no row is paired with itself and every emitted pair's two legs
carry distinct CTD identifiers.  Membership together with `Nodup` of the
emitted list states that each qualifying ordered pair appears exactly once. -/
theorem hedgeCombos_spec (rows : List HedgeRow) (hnd : rows.Nodup) (a b : HedgeRow) :
    ((a, b) ∈ hedgeCombos rows ↔ a ∈ rows ∧ b ∈ rows ∧ a.ctdConId ≠ b.ctdConId) ∧
    (hedgeCombos rows).Nodup ∧
    ∀ p ∈ hedgeCombos rows, p.1.ctdConId ≠ p.2.ctdConId := by
  have hprod : hedgeCombos rows =
      (rows ×ˢ rows).filter (fun p => decide (p.1.ctdConId ≠ p.2.ctdConId)) := rfl
  have hndf : (hedgeCombos rows).Nodup := by
    rw [hprod]; exact (hnd.product hnd).filter _
  have hmem : ∀ p : HedgeRow × HedgeRow,
      p ∈ hedgeCombos rows ↔ p.1 ∈ rows ∧ p.2 ∈ rows ∧ p.1.ctdConId ≠ p.2.ctdConId := by
    intro p
    rw [hprod, List.mem_filter]
    cases p with
    | mk x y => simp [List.mem_product, and_assoc]
  exact ⟨hmem (a, b), hndf, fun p hp => ((hmem p).mp hp).2.2⟩

/-- Witness for C5 (amended): two duplicate-free rows with distinct CTD
identifiers produce the ordered pair, and the emitted list is duplicate-free. -/
theorem hedgeCombos_spec_witness :
    ([⟨1, 7⟩, ⟨2, 8⟩] : List HedgeRow).Nodup ∧
    ((⟨1, 7⟩, ⟨2, 8⟩) : HedgeRow × HedgeRow) ∈ hedgeCombos [⟨1, 7⟩, ⟨2, 8⟩] ∧
    (hedgeCombos [⟨1, 7⟩, ⟨2, 8⟩]).Nodup := by
  have hnd : ([⟨1, 7⟩, ⟨2, 8⟩] : List HedgeRow).Nodup := by decide
  have h := hedgeCombos_spec [⟨1, 7⟩, ⟨2, 8⟩] hnd ⟨1, 7⟩ ⟨2, 8⟩
  exact ⟨hnd, h.1.mpr ⟨by decide, by decide, by decide⟩, h.2.1⟩

/-- Counterexample for C4 as stated: the string 134'16.5 under the quarter
convention parses to `134 + 16/32 + 5/128 = 17221/128 = 134.5390625`, which
differs from the claimed `134 + 16/32 + 0.5/(32*4) ≈ 134.50391`: the code
feeds the sub-fraction digits through `int` (giving 5), it does not read them
as the decimal fraction 0.5. -/
theorem convert_futures_price_counterexample :
    convert_futures_price c4PriceStr (some "quarter") = some (17221 / 128) ∧
    (17221 / 128 : ℚ) ≠ 134 + 16 / 32 + (1 / 2) / (32 * 4) := by
  constructor
  · have h1 : pyIntChars? ['1', '3', '4'] = some 134 := by decide
    have h2 : pyIntChars? ['1', '6'] = some 16 := by decide
    have h3 : pyIntChars? ['5'] = some 5 := by decide
    simp +decide [convert_futures_price, c4PriceStr, apos, futDenominator, splitOnChar,
      h1, h2, h3]
    norm_num
  · norm_num

/-- Claim C4 (amended): under the quarter convention the string 134'16.5
parses to `134 + 16/32 + 5/(32*4)` — the digits after the dot are converted by
`int` and divided by `32 * denominator`, not interpreted as the decimal
fraction 0.5 of a 32nd — and every string containing no apostrophe passes
through Python `float` unchanged. -/
theorem convert_futures_price_spec :
    convert_futures_price c4PriceStr (some "quarter") = some (134 + 16 / 32 + 5 / (32 * 4)) ∧
    ∀ (s : String) (t : Option String), s.data.contains apos = false →
      convert_futures_price s t = pyFloat? s := by
  constructor
  · have h1 : pyIntChars? ['1', '3', '4'] = some 134 := by decide
    have h2 : pyIntChars? ['1', '6'] = some 16 := by decide
    have h3 : pyIntChars? ['5'] = some 5 := by decide
    simp +decide [convert_futures_price, c4PriceStr, apos, futDenominator, splitOnChar,
      h1, h2, h3]
    norm_num
  · intro s t h
    rw [convert_futures_price, if_pos h]

/-- Witness for C4 (amended): the plain decimal string 101.5 contains no
apostrophe and passes through as its numeric value 203/2. -/
theorem convert_futures_price_spec_witness :
    ("101.5" : String).data.contains apos = false ∧
    convert_futures_price "101.5" none = pyFloat? "101.5" ∧
    pyFloat? "101.5" = some (203 / 2) := by
  refine ⟨by decide, convert_futures_price_spec.2 "101.5" none (by decide), ?_⟩
  have h1 : digitsVal ['1', '0', '1'] = 101 := by decide
  have h2 : digitsVal ['5'] = 5 := by decide
  simp +decide [pyFloat?, splitOnChar, h1, h2]
  norm_num

/-- Claim C6 (code bug): a bond record whose only defect is an empty last
price passes the `is_valid` check (which omits `last_price`) and the
subsequent `float(last_price)` conversion raises instead of the record being
skipped with `None`; by contrast the same record with an empty ask price is
skipped as the claim describes.  The spec's required-field list includes the
last price, so the code contradicts the documented skip-don't-halt policy. -/
theorem compute_ust_kpis_missing_last_raises :
    compute_ust_kpis c6FailingItem = .error "float last_price" ∧
    compute_ust_kpis { c6FailingItem with ask_price := some "" } = .ok none := by
  constructor <;>
    simp +decide [compute_ust_kpis, c6FailingItem, fieldPresent, pyFloat?, pyInt?,
      pyIntChars?, digitsToNat?, splitOnChar]

-- A successful `bond_price` evaluation returns exactly the formula value.
theorem ytmBondPrice?_eq_some (a : YtmArgs) (y p : ℚ)
    (h : ytmBondPrice? a y = some p) : p = ytmBondPriceVal a y := by
  rw [ytmBondPrice?] at h
  by_cases hc : 1 + y / a.periods_per_year = 0 ∧ ytmNPeriods a ≠ 0
  · rw [if_pos hc] at h; exact absurd h (by simp)
  · rw [if_neg hc] at h; exact (Option.some.injEq _ _ ▸ h).symm

-- One loop step propagates a raising `bond_price` call.
theorem ytmLoop?_succ_of_none (a : YtmArgs) (fuel : ℕ) (y : ℚ)
    (h1 : ytmBondPrice? a y = none) : ytmLoop? a (fuel + 1) y = none := by
  cases h2 : ytmBondPrice? a (y + 1 / 100000) <;>
    cases h3 : ytmBondPrice? a (y - 1 / 100000) <;>
      simp only [ytmLoop?, h1, h2, h3]

-- One loop step with three successful `bond_price` evaluations.
theorem ytmLoop?_succ_of_some (a : YtmArgs) (fuel : ℕ) (y p1 p2 p3 : ℚ)
    (h1 : ytmBondPrice? a y = some p1)
    (h2 : ytmBondPrice? a (y + 1 / 100000) = some p2)
    (h3 : ytmBondPrice? a (y - 1 / 100000) = some p3) :
    ytmLoop? a (fuel + 1) y =
      (let price_derivative := (p2 - p3) / (2 * (1 / 100000))
       if |price_derivative| < 1 / 10 ^ 12 then some y
       else
         let ytm_new := y - (p1 - ytmTargetPrice a) / price_derivative
         if |ytm_new - y| < 1 / 10 ^ 8 then some (pyRound a.n_digits ytm_new)
         else ytmLoop? a fuel ytm_new) := by
  simp only [ytmLoop?, h1, h2, h3]

-- A solver run that returns a value returns an orbit point of the guarded
-- step map, tagged with the exit condition that produced it.
theorem ytmLoop?_characterization (a : YtmArgs) : ∀ (fuel : ℕ) (y r : ℚ),
    ytmLoop? a fuel y = some r →
    ∃ n ≤ fuel,
      (r = (ytmIterate a)^[n] y ∧
        (n = fuel ∨ |ytmDeriv a ((ytmIterate a)^[n] y)| < 1 / 10 ^ 12)) ∨
      (r = pyRound a.n_digits ((ytmIterate a)^[n + 1] y) ∧
        |(ytmIterate a)^[n + 1] y - (ytmIterate a)^[n] y| < 1 / 10 ^ 8 ∧
        1 / 10 ^ 12 ≤ |ytmDeriv a ((ytmIterate a)^[n] y)|) := by
  intro fuel
  induction fuel with
  | zero =>
      intro y r hr
      simp only [ytmLoop?, Option.some.injEq] at hr
      exact ⟨0, le_refl 0, Or.inl ⟨hr.symm, Or.inl rfl⟩⟩
  | succ fuel ih =>
      intro y r hr
      simp only [ytmLoop?] at hr
      cases h1 : ytmBondPrice? a y with
      | none => rw [h1] at hr; simp at hr
      | some p1 =>
        cases h2 : ytmBondPrice? a (y + 1 / 100000) with
        | none => rw [h1, h2] at hr; simp at hr
        | some p2 =>
          cases h3 : ytmBondPrice? a (y - 1 / 100000) with
          | none => rw [h1, h2, h3] at hr; simp at hr
          | some p3 =>
            rw [h1, h2, h3] at hr
            obtain rfl := ytmBondPrice?_eq_some a y p1 h1
            obtain rfl := ytmBondPrice?_eq_some a _ p2 h2
            obtain rfl := ytmBondPrice?_eq_some a _ p3 h3
            have hD : (ytmBondPriceVal a (y + 1 / 100000) -
                ytmBondPriceVal a (y - 1 / 100000)) / (2 * (1 / 100000)) = ytmDeriv a y := rfl
            simp only [hD] at hr
            have hN : y - (ytmBondPriceVal a y - ytmTargetPrice a) / ytmDeriv a y
                = ytmNewton a y := rfl
            simp only [hN] at hr
            by_cases hd : |ytmDeriv a y| < 1 / 10 ^ 12
            · rw [if_pos hd, Option.some.injEq] at hr
              refine ⟨0, Nat.zero_le _, Or.inl ⟨hr.symm, Or.inr ?_⟩⟩
              simpa using hd
            · rw [if_neg hd] at hr
              have hstep : ytmIterate a y = ytmNewton a y := if_neg hd
              by_cases hc : |ytmNewton a y - y| < 1 / 10 ^ 8
              · rw [if_pos hc, Option.some.injEq] at hr
                refine ⟨0, Nat.zero_le _, Or.inr ⟨?_, ?_, ?_⟩⟩
                · rw [← hr]
                  simp [Function.iterate_one, hstep]
                · simpa [Function.iterate_one, hstep] using hc
                · simpa using le_of_not_lt hd
              · rw [if_neg hc] at hr
                obtain ⟨n, hn, hcase⟩ := ih (ytmNewton a y) r hr
                refine ⟨n + 1, Nat.succ_le_succ hn, ?_⟩
                have hit : ∀ m : ℕ,
                    (ytmIterate a)^[m] (ytmNewton a y) = (ytmIterate a)^[m + 1] y := by
                  intro m
                  rw [Function.iterate_succ_apply, hstep]
                rcases hcase with ⟨heq, hside⟩ | ⟨heq, hc1, hc2⟩
                · refine Or.inl ⟨by rw [heq, hit], ?_⟩
                  rcases hside with h | h
                  · exact Or.inl (by omega)
                  · exact Or.inr (by rw [← hit]; exact h)
                · exact Or.inr ⟨by rw [heq, hit], by rw [← hit, ← hit]; exact hc1,
                    by rw [← hit]; exact hc2⟩

/-- Counterexample for C7 as stated: the solver does not terminate without
raising on every input.  On `c7RaiseArgs` (coupon rate -200, two periods per
year) the initial guess is -2, the discount base `1 + (-2)/2` is zero with a
positive period count, and the very first `bond_price` call raises
`ZeroDivisionError` (modelled by `none`) instead of returning an estimate. -/
theorem calculate_ytm_zero_division_counterexample :
    calculate_ytm c7RaiseArgs = none := by
  have hN : ytmNPeriods c7RaiseArgs = 2 := by
    simp [ytmNPeriods, c7RaiseArgs, pyTrunc]
  have hbp : ytmBondPrice? c7RaiseArgs (c7RaiseArgs.coupon_rate / 100) = none := by
    rw [ytmBondPrice?, if_pos]
    refine ⟨?_, ?_⟩
    · show 1 + (-200 : ℚ) / 100 / ((2 : ℕ) : ℚ) = 0
      norm_num
    · rw [hN]; norm_num
  rw [calculate_ytm, if_neg (by norm_num [c7RaiseArgs]),
    show (1000 : ℕ) = 999 + 1 from rfl]
  exact ytmLoop?_succ_of_none c7RaiseArgs 999 _ hbp

/-- Claim C7 (amended): on every run in which no bond-price evaluation
divides by zero — the solver returns a value instead of raising
`ZeroDivisionError` — it terminates within 1000 iterations and returns an
orbit point of the guarded iteration map (the best available estimate):
there is an `n ≤ 1000` such that the result is either the `n`-th iterate —
returned because the central-difference derivative magnitude fell below
1e-12 or because all 1000 iterations elapsed — or the rounded `(n+1)`-th
iterate, returned because successive iterates differed by less than 1e-8
while the derivative guard did not fire.  On inputs where a zero discount
base (or `periods_per_year = 0`) is hit, the solver raises rather than
returning (see the counterexample). -/
theorem calculate_ytm_success_characterization (a : YtmArgs) (r : ℚ)
    (h : calculate_ytm a = some r) :
    ∃ n ≤ 1000,
      (r = (ytmIterate a)^[n] (a.coupon_rate / 100) ∧
        (n = 1000 ∨ |ytmDeriv a ((ytmIterate a)^[n] (a.coupon_rate / 100))| < 1 / 10 ^ 12)) ∨
      (r = pyRound a.n_digits ((ytmIterate a)^[n + 1] (a.coupon_rate / 100)) ∧
        |(ytmIterate a)^[n + 1] (a.coupon_rate / 100) -
            (ytmIterate a)^[n] (a.coupon_rate / 100)| < 1 / 10 ^ 8 ∧
        1 / 10 ^ 12 ≤ |ytmDeriv a ((ytmIterate a)^[n] (a.coupon_rate / 100))|) := by
  rw [calculate_ytm] at h
  by_cases hp : a.periods_per_year = 0
  · rw [if_pos hp] at h; exact absurd h (by simp)
  · rw [if_neg hp] at h
    exact ytmLoop?_characterization a 1000 (a.coupon_rate / 100) r h

/-- Witness for C7 (amended): on `c7OkArgs` the solver completes without
raising, returning the initial guess 0 via the small-derivative exit, and
the characterization applies to that run. -/
theorem calculate_ytm_success_characterization_witness :
    calculate_ytm c7OkArgs = some 0 ∧
    ∃ n ≤ 1000,
      ((0 : ℚ) = (ytmIterate c7OkArgs)^[n] (c7OkArgs.coupon_rate / 100) ∧
        (n = 1000 ∨
          |ytmDeriv c7OkArgs ((ytmIterate c7OkArgs)^[n] (c7OkArgs.coupon_rate / 100))| <
            1 / 10 ^ 12)) ∨
      ((0 : ℚ) = pyRound c7OkArgs.n_digits
          ((ytmIterate c7OkArgs)^[n + 1] (c7OkArgs.coupon_rate / 100)) ∧
        |(ytmIterate c7OkArgs)^[n + 1] (c7OkArgs.coupon_rate / 100) -
            (ytmIterate c7OkArgs)^[n] (c7OkArgs.coupon_rate / 100)| < 1 / 10 ^ 8 ∧
        1 / 10 ^ 12 ≤
          |ytmDeriv c7OkArgs ((ytmIterate c7OkArgs)^[n] (c7OkArgs.coupon_rate / 100))|) := by
  have hN : ytmNPeriods c7OkArgs = 0 := by
    simp [ytmNPeriods, c7OkArgs, pyTrunc]
  have hval : ∀ y : ℚ, ytmBondPriceVal c7OkArgs y = 0 := by
    intro y
    rw [ytmBondPriceVal, hN]
    simp [c7OkArgs]
  have hbp : ∀ y : ℚ, ytmBondPrice? c7OkArgs y = some 0 := by
    intro y
    rw [ytmBondPrice?, if_neg (by rw [hN]; simp), hval]
  have heval : calculate_ytm c7OkArgs = some 0 := by
    rw [calculate_ytm, if_neg (by norm_num [c7OkArgs]),
      show (1000 : ℕ) = 999 + 1 from rfl,
      show c7OkArgs.coupon_rate / 100 = 0 from by norm_num [c7OkArgs]]
    rw [ytmLoop?_succ_of_some c7OkArgs 999 0 0 0 0 (hbp 0) (hbp _) (hbp _)]
    norm_num
  exact ⟨heval, calculate_ytm_success_characterization c7OkArgs 0 heval⟩

-- A first-occurrence fold-minimum is the accumulator or a list element.
theorem foldl_min_mem {α : Type} (k : α → ℚ) :
    ∀ (t : List α) (b : α),
      t.foldl (fun best x => if k x < k best then x else best) b = b ∨
      t.foldl (fun best x => if k x < k best then x else best) b ∈ t := by
  intro t
  induction t with
  | nil => intro b; exact Or.inl rfl
  | cons x xs ih =>
      intro b
      rw [List.foldl_cons]
      rcases ih (if k x < k b then x else b) with h | h
      · rw [h]
        by_cases hx : k x < k b
        · rw [if_pos hx]; exact Or.inr (List.mem_cons_self x xs)
        · rw [if_neg hx]; exact Or.inl rfl
      · exact Or.inr (List.mem_cons_of_mem x h)

-- The selected element of `argminFirst` belongs to the list.
theorem argminFirst_mem {α : Type} (k : α → ℚ) (l : List α) (a : α)
    (h : argminFirst k l = some a) : a ∈ l := by
  cases l with
  | nil => simp [argminFirst] at h
  | cons x t =>
      simp only [argminFirst, Option.some.injEq] at h
      rcases foldl_min_mem k t x with hx | hx
      · rw [← h, hx]; exact List.mem_cons_self x t
      · rw [← h]; exact List.mem_cons_of_mem x hx

-- Two keys that order every pair of list elements identically produce the
-- same first-occurrence fold-minimum.
theorem foldl_min_congr {α : Type} (k1 k2 : α → ℚ) (l : List α)
    (hk : ∀ x ∈ l, ∀ y ∈ l, (k1 x < k1 y ↔ k2 x < k2 y)) :
    ∀ (t : List α), (∀ x ∈ t, x ∈ l) → ∀ b ∈ l,
      t.foldl (fun best x => if k1 x < k1 best then x else best) b =
        t.foldl (fun best x => if k2 x < k2 best then x else best) b := by
  intro t
  induction t with
  | nil => intro _ b _; rfl
  | cons x xs ih =>
      intro ht b hb
      have hx : x ∈ l := ht x (List.mem_cons_self x xs)
      have htail : ∀ y ∈ xs, y ∈ l := fun y hy => ht y (List.mem_cons_of_mem x hy)
      rw [List.foldl_cons, List.foldl_cons]
      by_cases h1 : k1 x < k1 b
      · rw [if_pos h1, if_pos ((hk x hx b hb).mp h1)]
        exact ih htail x hx
      · rw [if_neg h1, if_neg (fun h2 => h1 ((hk x hx b hb).mpr h2))]
        exact ih htail b hb

-- `argminFirst` depends on the key only through the pairwise order it induces.
theorem argminFirst_congr {α : Type} (k1 k2 : α → ℚ) (l : List α)
    (hk : ∀ x ∈ l, ∀ y ∈ l, (k1 x < k1 y ↔ k2 x < k2 y)) :
    argminFirst k1 l = argminFirst k2 l := by
  cases l with
  | nil => rfl
  | cons x t =>
      simp only [argminFirst, Option.some.injEq]
      exact foldl_min_congr k1 k2 (x :: t) hk t
        (fun y hy => List.mem_cons_of_mem x hy) x (List.mem_cons_self x t)

-- With a constant key the fold never replaces the accumulator.
theorem foldl_min_const {α : Type} (k : α → ℚ) (c : ℚ) :
    ∀ (t : List α), (∀ x ∈ t, k x = c) → ∀ b, k b = c →
      t.foldl (fun best x => if k x < k best then x else best) b = b := by
  intro t
  induction t with
  | nil => intro _ b _; rfl
  | cons x xs ih =>
      intro ht b hb
      have hx : k x = c := ht x (List.mem_cons_self x xs)
      rw [List.foldl_cons, if_neg (by rw [hx, hb]; exact lt_irrefl c)]
      exact ih (fun y hy => ht y (List.mem_cons_of_mem x hy)) b hb

-- With a constant key `argminFirst` returns the head of the list.
theorem argminFirst_const {α : Type} (k : α → ℚ) (c : ℚ) (l : List α)
    (h : ∀ x ∈ l, k x = c) : argminFirst k l = l.head? := by
  cases l with
  | nil => rfl
  | cons x t =>
      simp only [argminFirst, List.head?]
      rw [foldl_min_const k c t (fun y hy => h y (List.mem_cons_of_mem x hy)) x
        (h x (List.mem_cons_self x t))]

-- Every hedge row kept by `process_futures_data` comes from a
-- conversion-factor match that selected a bond for that contract.
theorem process_futures_data_mem (usts : List USTRec) (tbl : CFTable) :
    ∀ (futs : List FutRec) (res : List (FutRec × USTRec)),
      process_futures_data futs usts tbl = .ok res →
      ∀ pr ∈ res, ∃ cf cp ym,
        find_conversion_factor pr.1 usts tbl = .ok (cf, cp, ym, some pr.2) := by
  intro futs
  induction futs with
  | nil =>
      intro res hres pr hpr
      simp only [process_futures_data, Except.ok.injEq] at hres
      subst hres
      simp at hpr
  | cons f rest ih =>
      intro res hres pr hpr
      cases hf : find_conversion_factor f usts tbl with
      | error e => simp [process_futures_data, hf] at hres
      | ok quad =>
          obtain ⟨cf, cp, ym, selOpt⟩ := quad
          cases selOpt with
          | none =>
              simp only [process_futures_data, hf] at hres
              exact ih res hres pr hpr
          | some sel =>
              simp only [process_futures_data, hf] at hres
              cases hr : process_futures_data rest usts tbl with
              | error e => rw [hr] at hres; simp [Except.map] at hres
              | ok l =>
                  rw [hr] at hres
                  simp only [Except.map, Except.ok.injEq] at hres
                  subst hres
                  rcases List.mem_cons.mp hpr with rfl | h
                  · exact ⟨cf, cp, ym, hf⟩
                  · exact ih l hr pr h

/-- Claim C3: for a futures contract with a recognized symbol, the
conversion-factor matcher returns a bond only if that bond's year-to-maturity
lies strictly inside the symbol's configured bracket; and when no bond in the
universe satisfies the bracket, all four result components are `None` and the
contract is dropped from further processing (it appears in no kept hedge
row). -/
theorem find_conversion_factor_bracket (fut : FutRec) (usts : List USTRec) (tbl : CFTable)
    (nm : String) (lo hi : ℚ) (hmap : sheet_mapping fut.symbol = some (nm, lo, hi)) :
    (∀ (cf cp ym : Option ℚ) (b : USTRec),
      find_conversion_factor fut usts tbl = .ok (cf, cp, ym, some b) →
      lo < b.year_to_maturity ∧ b.year_to_maturity < hi) ∧
    ((∀ u ∈ usts, ¬(lo < u.year_to_maturity ∧ u.year_to_maturity < hi)) →
      find_conversion_factor fut usts tbl = .ok (none, none, none, none) ∧
      ∀ (futs : List FutRec) (res : List (FutRec × USTRec)),
        process_futures_data futs usts tbl = .ok res → ∀ pr ∈ res, pr.1 ≠ fut) := by
  constructor
  · intro cf cp ym b heq
    simp only [find_conversion_factor, hmap] at heq
    cases hsel : selectCtdBond fut.price
        (usts.filter fun u => decide (lo < u.year_to_maturity ∧ u.year_to_maturity < hi)) with
    | none =>
        simp only [hsel] at heq
        simp at heq
    | some selected =>
        simp only [hsel] at heq
        have hb : b = selected := by
          cases hbc : bestCfCell (selected.price * fut.price) tbl with
          | none =>
              simp only [hbc, Except.ok.injEq, Prod.mk.injEq, Option.some.injEq] at heq
              exact heq.2.2.2.symm
          | some trip =>
              obtain ⟨cf1, cp1, ym1⟩ := trip
              simp only [hbc, Except.ok.injEq, Prod.mk.injEq, Option.some.injEq] at heq
              exact heq.2.2.2.symm
        subst hb
        have hmem : b ∈ usts.filter
            fun u => decide (lo < u.year_to_maturity ∧ u.year_to_maturity < hi) := by
          apply argminFirst_mem (fun u => |u.price * fut.price - u.price|)
          simpa [selectCtdBond] using hsel
        rw [List.mem_filter] at hmem
        exact of_decide_eq_true hmem.2
  · intro hno
    have hfilter : usts.filter
        (fun u => decide (lo < u.year_to_maturity ∧ u.year_to_maturity < hi)) = [] := by
      rw [List.filter_eq_nil_iff]
      intro u hu
      simpa using hno u hu
    have hmain : find_conversion_factor fut usts tbl = .ok (none, none, none, none) := by
      simp only [find_conversion_factor, hmap]
      rw [hfilter]
      rfl
    refine ⟨hmain, ?_⟩
    intro futs res hres pr hpr heq1
    obtain ⟨cf, cp, ym, hfind⟩ := process_futures_data_mem usts tbl futs res hres pr hpr
    rw [heq1, hmain] at hfind
    simp at hfind

/-- Witness for C3: the ZT contract with a single bond of year-to-maturity 1.9
(inside the (1.75, 2) bracket) selects that bond, whose maturity indeed lies
strictly inside the bracket. -/
theorem find_conversion_factor_bracket_witness :
    sheet_mapping c3Fut.symbol = some ("2-Year Note Table", 7 / 4, 2) ∧
    (7 / 4 < c3Bond.year_to_maturity ∧ c3Bond.year_to_maturity < 2) := by
  have hmap : sheet_mapping c3Fut.symbol = some ("2-Year Note Table", 7 / 4, 2) := by
    simp [sheet_mapping, c3Fut]
  have hcond : decide ((7 / 4 : ℚ) < c3Bond.year_to_maturity ∧
      c3Bond.year_to_maturity < 2) = true :=
    decide_eq_true (by norm_num [c3Bond])
  have hfl : List.filter
      (fun u => decide ((7 / 4 : ℚ) < u.year_to_maturity ∧ u.year_to_maturity < 2))
      [c3Bond] = [c3Bond] := by
    simp only [List.filter_cons, List.filter_nil, hcond, if_true]
  have heval : find_conversion_factor c3Fut [c3Bond] c3Tbl =
      .ok (none, none, none, some c3Bond) := by
    simp only [find_conversion_factor, hmap, hfl]
    rfl
  exact ⟨hmap,
    (find_conversion_factor_bracket c3Fut [c3Bond] c3Tbl _ _ _ hmap).1
      none none none c3Bond heval⟩

/-- Claim C10: in the stage-one CTD selection the metric
`|price * futuresPrice - price|` equals `price * |futuresPrice - 1|` for
positive prices, so the ranking is independent of the futures price: for
`futuresPrice ≠ 1` the selected bond is exactly the eligible bond of smallest
price, first in scan order on ties; and for `futuresPrice = 1` every distance
is zero and the first eligible bond in scan order is selected. -/
theorem selectCtdBond_price_refinement (l : List USTRec) (hpos : ∀ u ∈ l, 0 < u.price) :
    (∀ fp : ℚ, fp ≠ 1 → selectCtdBond fp l = smallestPriceBond l) ∧
    selectCtdBond 1 l = l.head? ∧
    (∀ p fp : ℚ, 0 < p → |p * fp - p| = p * |fp - 1|) := by
  have habs : ∀ (p fp : ℚ), 0 < p → |p * fp - p| = p * |fp - 1| := by
    intro p fp hp
    rw [show p * fp - p = p * (fp - 1) by ring, abs_mul, abs_of_pos hp]
  refine ⟨?_, ?_, habs⟩
  · intro fp hfp
    have hd : 0 < |fp - 1| := abs_pos.mpr (sub_ne_zero.mpr hfp)
    simp only [selectCtdBond, smallestPriceBond]
    apply argminFirst_congr
    intro x hx y hy
    rw [habs x.price fp (hpos x hx), habs y.price fp (hpos y hy)]
    exact mul_lt_mul_right hd
  · simp only [selectCtdBond]
    apply argminFirst_const _ 0
    intro x hx
    simp

/-- Witness for C10: with futures price 2 and two positively priced bonds the
code's selection equals the smallest-price selection. -/
theorem selectCtdBond_price_refinement_witness :
    (∀ u ∈ c10List, 0 < u.price) ∧ (2 : ℚ) ≠ 1 ∧
    selectCtdBond 2 c10List = smallestPriceBond c10List := by
  have hpos : ∀ u ∈ c10List, 0 < u.price := by
    intro u hu
    simp only [c10List, List.mem_cons, List.not_mem_nil, or_false] at hu
    rcases hu with rfl | rfl <;> norm_num
  exact ⟨hpos, by norm_num, (selectCtdBond_price_refinement c10List hpos).1 2 (by norm_num)⟩


-- `BPrice` without anchors is `bpriceAux` at the periodic parameters.
theorem BPrice_eq_bpriceAux (cpn term yield_ period : ℝ) :
    BPrice cpn term yield_ period =
      bpriceAux (cpn / period) (term * period) (yield_ / period) := rfl

-- Bernoulli-type bound: (1+x)^(-T) ≥ 1 - T*x for T > 0, x > -1.
theorem rpow_neg_ge_one_sub (T x : ℝ) (hT : 0 < T) (hx : -1 < x) :
    1 - T * x ≤ (1 + x) ^ (-T) := by
  have hu : (0 : ℝ) < 1 + x := by linarith
  have hlog : Real.log (1 + x) ≤ x := by
    have := Real.log_le_sub_one_of_pos hu
    linarith
  have hmul : -T * x ≤ -T * Real.log (1 + x) :=
    mul_le_mul_of_nonpos_left hlog (neg_nonpos.mpr hT.le)
  have hrw : (1 + x) ^ (-T) = Real.exp (Real.log (1 + x) * (-T)) :=
    Real.rpow_def_of_pos hu _
  have hexp : -T * Real.log (1 + x) + 1 ≤ Real.exp (-T * Real.log (1 + x)) :=
    Real.add_one_le_exp _
  rw [hrw, show Real.log (1 + x) * -T = -T * Real.log (1 + x) from mul_comm _ _]
  linarith

-- Numerator of the annuity-factor derivative is nonpositive.
theorem annuity_deriv_numer_nonpos (T x : ℝ) (hT : 0 < T) (hx : -1 < x) :
    T * x * (1 + x) ^ (-T - 1) - (1 - (1 + x) ^ (-T)) ≤ 0 := by
  have hu : (0 : ℝ) < 1 + x := by linarith
  have key : 1 + (T + 1) * x ≤ (1 + x) ^ (T + 1) :=
    one_add_mul_self_le_rpow_one_add hx.le (by linarith)
  have hpow : (0 : ℝ) < (1 + x) ^ (T + 1) := Real.rpow_pos_of_pos hu _
  have hinv : (1 + x) ^ (-T - 1) = ((1 + x) ^ (T + 1))⁻¹ := by
    rw [show (-T - 1 : ℝ) = -(T + 1) by ring, Real.rpow_neg hu.le]
  have huT : (1 + x) ^ (-T) = (1 + x) * (1 + x) ^ (-T - 1) := by
    have h := Real.rpow_add hu 1 (-T - 1)
    rw [show (1 : ℝ) + (-T - 1) = -T by ring] at h
    rw [h, Real.rpow_one]
  have hN : T * x * (1 + x) ^ (-T - 1) - (1 - (1 + x) ^ (-T))
      = (1 + (T + 1) * x) * (1 + x) ^ (-T - 1) - 1 := by
    rw [huT]; ring
  rw [hN, hinv]
  have h2 : (1 + (T + 1) * x) * ((1 + x) ^ (T + 1))⁻¹ ≤
      (1 + x) ^ (T + 1) * ((1 + x) ^ (T + 1))⁻¹ :=
    mul_le_mul_of_nonneg_right key (inv_nonneg.mpr hpow.le)
  rw [mul_inv_cancel₀ (ne_of_gt hpow)] at h2
  linarith

-- Derivative of the clean-price function at a point off the yield-zero
-- singularity.
theorem bpriceAux_hasDerivAt (C T x : ℝ) (hu : (0 : ℝ) < 1 + x) (hx : x ≠ 0) :
    HasDerivAt (fun z => bpriceAux C T z)
      (C * ((T * x * (1 + x) ^ (-T - 1) - (1 - (1 + x) ^ (-T))) / x ^ 2)
        - 100 * (T * (1 + x) ^ (T - 1)) / ((1 + x) ^ T) ^ 2) x := by
  have h1 : HasDerivAt (fun z : ℝ => 1 + z) 1 x := (hasDerivAt_id x).const_add 1
  have hv : HasDerivAt (fun z : ℝ => (1 + z) ^ (-T)) (1 * (-T) * (1 + x) ^ (-T - 1)) x :=
    h1.rpow_const (Or.inl (ne_of_gt hu))
  have hn : HasDerivAt (fun z : ℝ => C * (1 - (1 + z) ^ (-T)))
      (C * (0 - 1 * (-T) * (1 + x) ^ (-T - 1))) x :=
    ((hasDerivAt_const x (1 : ℝ)).sub hv).const_mul C
  have hg : HasDerivAt (fun z : ℝ => C * (1 - (1 + z) ^ (-T)) / z)
      ((C * (0 - 1 * (-T) * (1 + x) ^ (-T - 1)) * x - C * (1 - (1 + x) ^ (-T)) * 1) / x ^ 2) x :=
    hn.div (hasDerivAt_id x) hx
  have hdT : HasDerivAt (fun z : ℝ => (1 + z) ^ T) (1 * T * (1 + x) ^ (T - 1)) x :=
    h1.rpow_const (Or.inl (ne_of_gt hu))
  have hTne : (1 + x) ^ T ≠ 0 := ne_of_gt (Real.rpow_pos_of_pos hu T)
  have hr : HasDerivAt (fun z : ℝ => 100 / (1 + z) ^ T)
      ((0 * (1 + x) ^ T - 100 * (1 * T * (1 + x) ^ (T - 1))) / ((1 + x) ^ T) ^ 2) x :=
    (hasDerivAt_const x (100 : ℝ)).div hdT hTne
  have := hg.add hr
  convert this using 1
  · ring

theorem bpriceAux_deriv_neg (C T x : ℝ) (hC : 0 ≤ C) (hT : 0 < T)
    (hx1 : -1 < x) (hx : x ≠ 0) :
    C * ((T * x * (1 + x) ^ (-T - 1) - (1 - (1 + x) ^ (-T))) / x ^ 2)
      - 100 * (T * (1 + x) ^ (T - 1)) / ((1 + x) ^ T) ^ 2 < 0 := by
  have hu : (0 : ℝ) < 1 + x := by linarith
  have hN := annuity_deriv_numer_nonpos T x hT hx1
  have hx2 : (0 : ℝ) < x ^ 2 := by positivity
  have h1 : C * ((T * x * (1 + x) ^ (-T - 1) - (1 - (1 + x) ^ (-T))) / x ^ 2) ≤ 0 :=
    mul_nonpos_of_nonneg_of_nonpos hC (div_nonpos_of_nonpos_of_nonneg hN hx2.le)
  have h2 : 0 < 100 * (T * (1 + x) ^ (T - 1)) / ((1 + x) ^ T) ^ 2 := by
    have ha : (0 : ℝ) < (1 + x) ^ (T - 1) := Real.rpow_pos_of_pos hu _
    have hb : (0 : ℝ) < (1 + x) ^ T := Real.rpow_pos_of_pos hu _
    have : (0 : ℝ) < 100 * (T * (1 + x) ^ (T - 1)) := by positivity
    positivity
  linarith

theorem bpriceAux_strictAntiOn_neg (C T : ℝ) (hC : 0 ≤ C) (hT : 0 < T) :
    StrictAntiOn (fun x => bpriceAux C T x) (Set.Ioo (-1 : ℝ) 0) := by
  apply strictAntiOn_of_deriv_neg (convex_Ioo _ _)
  · intro x hx
    have hu : (0 : ℝ) < 1 + x := by have := hx.1; linarith
    exact (bpriceAux_hasDerivAt C T x hu
      (ne_of_lt hx.2)).differentiableAt.continuousAt.continuousWithinAt
  · intro x hx
    rw [interior_Ioo] at hx
    have hu : (0 : ℝ) < 1 + x := by have := hx.1; linarith
    rw [(bpriceAux_hasDerivAt C T x hu (ne_of_lt hx.2)).deriv]
    exact bpriceAux_deriv_neg C T x hC hT hx.1 (ne_of_lt hx.2)

theorem bpriceAux_strictAntiOn_pos (C T : ℝ) (hC : 0 ≤ C) (hT : 0 < T) :
    StrictAntiOn (fun x => bpriceAux C T x) (Set.Ioi (0 : ℝ)) := by
  apply strictAntiOn_of_deriv_neg (convex_Ioi _)
  · intro x hx
    have hx0 : (0 : ℝ) < x := hx
    have hu : (0 : ℝ) < 1 + x := by linarith
    exact (bpriceAux_hasDerivAt C T x hu
      (ne_of_gt hx0)).differentiableAt.continuousAt.continuousWithinAt
  · intro x hx
    rw [interior_Ioi] at hx
    have hx0 : (0 : ℝ) < x := hx
    have hu : (0 : ℝ) < 1 + x := by linarith
    rw [(bpriceAux_hasDerivAt C T x hu (ne_of_gt hx0)).deriv]
    exact bpriceAux_deriv_neg C T x hC hT (by linarith) (ne_of_gt hx0)

theorem bpriceAux_lt_straddle (C T : ℝ) (hC : 0 ≤ C) (hT : 0 < T) (x : ℝ) (hx : 0 < x) :
    bpriceAux C T x < C * T + 100 := by
  have hu : (0 : ℝ) < 1 + x := by linarith
  have hb := rpow_neg_ge_one_sub T x hT (by linarith)
  have h2 : (1 - (1 + x) ^ (-T)) / x ≤ T := by
    rw [div_le_iff₀ hx]; linarith
  have hann : C * (1 - (1 + x) ^ (-T)) / x ≤ C * T := by
    calc C * (1 - (1 + x) ^ (-T)) / x = C * ((1 - (1 + x) ^ (-T)) / x) := by ring
      _ ≤ C * T := mul_le_mul_of_nonneg_left h2 hC
  have hred : 100 / (1 + x) ^ T < 100 := by
    have h1 : (1 : ℝ) < (1 + x) ^ T :=
      (Real.one_lt_rpow_iff_of_pos hu).mpr (Or.inl ⟨by linarith, hT⟩)
    have hpow : (0 : ℝ) < (1 + x) ^ T := Real.rpow_pos_of_pos hu _
    rw [div_lt_iff₀ hpow]; nlinarith
  unfold bpriceAux
  linarith

theorem bpriceAux_gt_straddle (C T : ℝ) (hC : 0 ≤ C) (hT : 0 < T) (x : ℝ)
    (hx1 : -1 < x) (hx : x < 0) :
    C * T + 100 < bpriceAux C T x := by
  have hu : (0 : ℝ) < 1 + x := by linarith
  have hb := rpow_neg_ge_one_sub T x hT hx1
  have h2 : T ≤ (1 - (1 + x) ^ (-T)) / x := by
    rw [le_div_iff_of_neg hx]; linarith
  have hann : C * T ≤ C * (1 - (1 + x) ^ (-T)) / x := by
    calc C * T ≤ C * ((1 - (1 + x) ^ (-T)) / x) := mul_le_mul_of_nonneg_left h2 hC
      _ = C * (1 - (1 + x) ^ (-T)) / x := by ring
  have hred : 100 < 100 / (1 + x) ^ T := by
    have h1 : (1 + x) ^ T < 1 := Real.rpow_lt_one hu.le (by linarith) hT
    have hpow : (0 : ℝ) < (1 + x) ^ T := Real.rpow_pos_of_pos hu _
    rw [lt_div_iff₀ hpow]; nlinarith
  unfold bpriceAux
  linarith

/-- Claim C9 (amended): with coupon >= 0, term > 0, period 2 and no accrual
anchors, `BPrice` is strictly decreasing in yield on the claimed domain
(yield > -1) away from the yield-zero singularity: for every
`-1 < y1 < y2` with `y1 /= 0` and `y2 /= 0`,
`BPrice cpn term y1 2 > BPrice cpn term y2 2`.  At yield exactly 0 the
implementation divides by zero (see the counterexample), which is the only
point the claim must exclude. -/
theorem BPrice_strictAnti_in_yield (cpn term : ℝ) (hcpn : 0 ≤ cpn) (hterm : 0 < term) :
    ∀ y1 y2 : ℝ, -1 < y1 → y1 < y2 → y1 ≠ 0 → y2 ≠ 0 →
      BPrice cpn term y2 2 < BPrice cpn term y1 2 := by
  intro y1 y2 hy1 hlt hy1z hy2z
  have hC : 0 ≤ cpn / 2 := by linarith
  have hT : 0 < term * 2 := by linarith
  rw [BPrice_eq_bpriceAux, BPrice_eq_bpriceAux]
  rcases lt_or_gt_of_ne hy2z with h2neg | h2pos
  · have hx1 : y1 / 2 ∈ Set.Ioo (-1 : ℝ) 0 := ⟨by linarith, by linarith⟩
    have hx2 : y2 / 2 ∈ Set.Ioo (-1 : ℝ) 0 := ⟨by linarith, by linarith⟩
    exact bpriceAux_strictAntiOn_neg _ _ hC hT hx1 hx2 (by linarith)
  · rcases lt_or_gt_of_ne hy1z with h1neg | h1pos
    · have hA := bpriceAux_gt_straddle _ _ hC hT (y1 / 2) (by linarith) (by linarith)
      have hB := bpriceAux_lt_straddle _ _ hC hT (y2 / 2) (by linarith)
      linarith
    · have hx1 : y1 / 2 ∈ Set.Ioi (0 : ℝ) := by
        rw [Set.mem_Ioi]; linarith
      have hx2 : y2 / 2 ∈ Set.Ioi (0 : ℝ) := by
        rw [Set.mem_Ioi]; linarith
      exact bpriceAux_strictAntiOn_pos _ _ hC hT hx1 hx2 (by linarith)

/-- Counterexample for C9 as stated: the claimed domain contains yield = 0,
where `BPrice` divides by zero (Python raises `ZeroDivisionError`; the model
takes the junk value, giving price 100 for coupon 20, term 10).  Taking
`y1 = 0 < y2 = 1/10`, monotonicity fails: the price at yield 1/10 is
`200 - 100*(21/20)^(-20) >= 100`, not less than the value at yield 0. -/
theorem BPrice_yield_zero_counterexample :
    ¬ (BPrice 20 10 0 2 > BPrice 20 10 (1 / 10) 2) := by
  have h0 : BPrice 20 10 0 2 = 100 := by
    rw [BPrice_eq_bpriceAux]
    unfold bpriceAux
    norm_num [Real.one_rpow]
  have hargs : BPrice 20 10 (1 / 10) 2 = bpriceAux 10 20 (1 / 20) := by
    rw [BPrice_eq_bpriceAux]
    norm_num
  have hval : 100 ≤ BPrice 20 10 (1 / 10) 2 := by
    rw [hargs]
    unfold bpriceAux
    have hubase : (0 : ℝ) < 1 + (1 / 20 : ℝ) := by norm_num
    have hw_lt : (1 + (1 / 20 : ℝ)) ^ (-(20 : ℝ)) < 1 :=
      Real.rpow_lt_one_of_one_lt_of_neg (by norm_num) (by norm_num)
    have hw_pos : (0 : ℝ) < (1 + (1 / 20 : ℝ)) ^ (-(20 : ℝ)) :=
      Real.rpow_pos_of_pos hubase _
    have hw_inv : (100 : ℝ) / (1 + (1 / 20 : ℝ)) ^ (20 : ℝ)
        = 100 * (1 + (1 / 20 : ℝ)) ^ (-(20 : ℝ)) := by
      rw [Real.rpow_neg hubase.le, div_eq_mul_inv]
    rw [hw_inv]
    have harith : ∀ w : ℝ, 10 * (1 - w) / (1 / 20) + 100 * w = 200 - 100 * w := by
      intro w; ring
    rw [harith]
    linarith
  linarith

/-- Witness for C9 (amended): at coupon 0, term 1, the price at yield 2/100 is
strictly below the price at yield 1/100. -/
theorem BPrice_strictAnti_in_yield_witness :
    (0 : ℝ) ≤ 0 ∧ (0 : ℝ) < 1 ∧ (-1 : ℝ) < 1 / 100 ∧ (1 / 100 : ℝ) < 2 / 100 ∧
    (1 / 100 : ℝ) ≠ 0 ∧ (2 / 100 : ℝ) ≠ 0 ∧
    BPrice 0 1 (2 / 100) 2 < BPrice 0 1 (1 / 100) 2 :=
  ⟨le_refl 0, by norm_num, by norm_num, by norm_num, by norm_num, by norm_num,
    BPrice_strictAnti_in_yield 0 1 (le_refl 0) (by norm_num) (1 / 100) (2 / 100)
      (by norm_num) (by norm_num) (by norm_num) (by norm_num)⟩
